import Mathlib

/-!
Shallow embedding of the weighted upstream sampling pool of `potentia-inc/ts-model`
(`src/upstream-pool.js`, identically `class Pool` in `src/src/upstream.ts`).

Modelling conventions:
* JS numbers (weights, ttl, decay, times) are embedded as `ℚ`; `minFailures` is an
  `Int` (the spec calls it an integer and the code only compares it with `>=`).
* An upstream's key is `String(pickId(upstream))`, an injective function of its id;
  we embed the key directly as the id (`Nat`).
* The JS `Map`s (`#failures`, `#times`, `#weights`) are embedded as functions
  `Nat → Option _`; `Map.get(k) ?? d` is `(m k).getD d`, `Map.set`/`Map.delete`
  are pointwise updates `mapSet`/`mapDel`.
* A `node:assert` failure is embedded as `none` of an `Option`-returning operation;
  a thrown `NoUpstreamError` as `Except.error PoolError.noUpstream`.
* Effects are made explicit parameters: `Date.now()` becomes a `now : ℚ` argument,
  the async loader result (`this.#load()` / `upstreams.findMany`) becomes a
  `loaded : List Upstream` argument, and `Math.random()` becomes an `r : ℚ`
  argument (the code uses `rand = Math.random() * sum`, embedded as `r * sum`).
* `sample` first awaits `#sync` and afterwards records `#times` and sleeps; those
  steps touch only the time state, so the selection core (candidate collection and
  the weighted draw, acting on the post-`#sync` state) is embedded as `Pool.sample`
  and `#sync` separately as `Pool.sync`.
-/

/-- An upstream endpoint: its id (standing for the ObjectId key), its static
configured `weight` and its rate-limiting `interval`. -/
structure Upstream where
  id : Nat
  weight : ℚ
  interval : ℚ
deriving DecidableEq

/-- The `UpstreamOrId` argument type of `succeed`/`fail` and of a hint:
either the `Upstream` object itself or a raw id. -/
inductive UpstreamOrId where
  | ups (u : Upstream)
  | rawId (i : Nat)
deriving DecidableEq

/-- Hint types `'same' | 'diff'`. -/
inductive HintType where
  | same
  | diff
deriving DecidableEq, BEq

/-- A sampling hint `{type, upstream}`. -/
structure Hint where
  type : HintType
  upstream : UpstreamOrId
deriving DecidableEq

/-- Resolved pool options (`this.#options` after defaulting). -/
structure PoolOptions where
  ttl : ℚ
  minFailures : Int
  minWeight : ℚ
  decay : ℚ
deriving DecidableEq

/-- The constructor's configuration argument: each field optional, defaulted. -/
structure PoolConfig where
  ttl : Option ℚ
  minFailures : Option Int
  minWeight : Option ℚ
  decay : Option ℚ

/-- The pool's mutable state: `#caches`, `#failures`, `#times` (lastSampledAt),
`#weights` (effectiveWeight), `#expiresAt`. -/
structure PoolState where
  caches : List Upstream
  failures : Nat → Option Nat
  times : Nat → Option ℚ
  weights : Nat → Option ℚ
  expiresAt : ℚ

/-- The error `NoUpstreamError`. -/
inductive PoolError where
  | noUpstream
deriving DecidableEq

/-- Pointwise `Map.set k v` on a map embedded as a function. -/
def mapSet {α : Type} (m : Nat → Option α) (k : Nat) (v : α) : Nat → Option α :=
  fun j => if j = k then some v else m j

/-- Pointwise `Map.delete k` on a map embedded as a function. -/
def mapDel {α : Type} (m : Nat → Option α) (k : Nat) : Nat → Option α :=
  fun j => if j = k then none else m j

namespace Pool

/-- The key `#key(upstream) = String(pickId(upstream))`, embedded as the id itself. -/
def key (u : Upstream) : Nat := u.id

/-- The accessor `#failure(key) = this.#failures.get(key) ?? 0`. -/
def failureOf (st : PoolState) (k : Nat) : Nat := (st.failures k).getD 0

/-- The accessor `#time(key) = this.#times.get(key) ?? 0`. -/
def timeOf (st : PoolState) (k : Nat) : ℚ := (st.times k).getD 0

/-- The accessor `#weight(key, weight) = this.#weights.get(key) ?? weight`. -/
def weightOf (st : PoolState) (k : Nat) (w : ℚ) : ℚ := (st.weights k).getD w

/-- The effective weight used for a candidate `x`: `#weight(#key(x), x.weight)`. -/
def effWeight (st : PoolState) (x : Upstream) : ℚ := weightOf st (key x) x.weight

/-- Defaulting of the constructor's options:
`ttl ?? 60, minFailures ?? 0, minWeight ?? 0.01, decay ?? 0.8`. -/
def resolveOptions (c : PoolConfig) : PoolOptions :=
  { ttl := c.ttl.getD 60
    minFailures := c.minFailures.getD 0
    minWeight := c.minWeight.getD (1 / 100)
    decay := c.decay.getD (4 / 5) }

/-- The constructor's assertion:
`ttl >= 1 && minFailures >= 0 && minWeight >= 0 && decay > 0 && decay < 1`. -/
def optionsValid (o : PoolOptions) : Prop :=
  1 ≤ o.ttl ∧ 0 ≤ o.minFailures ∧ 0 ≤ o.minWeight ∧ 0 < o.decay ∧ o.decay < 1

instance (o : PoolOptions) : Decidable (optionsValid o) := by
  unfold optionsValid
  infer_instance

/-- The pool's initial state: empty caches and maps, `#expiresAt = 0`. -/
def initState : PoolState :=
  { caches := []
    failures := fun _ => none
    times := fun _ => none
    weights := fun _ => none
    expiresAt := 0 }

/-- The `Pool` constructor: defaults the options, asserts the invariants
(`none` = fatal assertion), and yields the resolved options and initial state. -/
def new (c : PoolConfig) : Option (PoolOptions × PoolState) :=
  let o := resolveOptions c
  if optionsValid o then some (o, initState) else none

/-- Argument resolution shared by `succeed` and `fail`:
`id instanceof Upstream ? id : this.#caches.find((x) => x.id.equals(id))`. -/
def resolve (st : PoolState) (arg : UpstreamOrId) : Option Upstream :=
  match arg with
  | .ups u => some u
  | .rawId i => st.caches.find? (fun x => x.id == i)

/-- The method `succeed(id)`: resolve (assert on failure), then
`#failures.set(key, 0); #weights.set(key, upstream.weight)`. -/
def succeed (st : PoolState) (arg : UpstreamOrId) : Option PoolState :=
  match resolve st arg with
  | none => none
  | some u =>
    let k := key u
    some { st with
            failures := mapSet st.failures k 0
            weights := mapSet st.weights k u.weight }

/-- The method `fail(id)`: resolve (assert on failure), increment the failure count, and if
the incremented count `>= minFailures` set the weight to
`#weight(key, upstream.weight) * decay`; otherwise leave the weights untouched. -/
def fail (o : PoolOptions) (st : PoolState) (arg : UpstreamOrId) : Option PoolState :=
  match resolve st arg with
  | none => none
  | some u =>
    let k := key u
    let failure := failureOf st k + 1
    let failures' := mapSet st.failures k failure
    if (failure : Int) ≥ o.minFailures then
      some { st with
              failures := failures'
              weights := mapSet st.weights k (weightOf st k u.weight * o.decay) }
    else
      some { st with failures := failures' }

/-- The stale-entry purge of `#sync`: for each cached upstream whose key is not in
the fresh key set, delete its entry from the map
(`for (const x of caches) if (!keys.has(key(x))) m.delete(key(x))`). -/
def purge {α : Type} (caches : List Upstream) (keys : List Nat) (m : Nat → Option α) :
    Nat → Option α :=
  caches.foldl (fun m x => if key x ∈ keys then m else mapDel m (key x)) m

/-- The refresh `#sync()`: no-op while `#expiresAt > now`; otherwise load the fresh list,
purge `#times` and `#failures` of keys absent from it (one loop over the old
caches in the source, embedded as one `purge` per map), replace `#caches`, and
set `#expiresAt = now + ttl * 1000`. The loader's result is the `loaded`
argument. -/
def sync (o : PoolOptions) (st : PoolState) (now : ℚ) (loaded : List Upstream) :
    PoolState :=
  if st.expiresAt > now then st
  else
    let keys := loaded.map key
    { st with
        caches := loaded
        times := purge st.caches keys st.times
        failures := purge st.caches keys st.failures
        expiresAt := now + o.ttl * 1000 }

/-- The id `pickIdOrNil(hint.upstream)` for a present hint (used by the filter). -/
def hintId : UpstreamOrId → Nat
  | .ups u => u.id
  | .rawId i => i

/-- The hint filter predicate:
`(hint.type === 'diff' && !eq) || (hint.type === 'same' && eq)` where
`eq = id.equals(x.id)`. -/
def hintKeep (h : Hint) (x : Upstream) : Bool :=
  let eq := hintId h.upstream == x.id
  (h.type == HintType.diff && !eq) || (h.type == HintType.same && eq)

/-- Candidate collection of `sample`: filter the caches by the hint (keep all when
there is no hint); with a hint, fall back to the full caches when the filtered
list is empty (`isNullish(hint) || filtered.length > 0 ? filtered : caches`). -/
def candidates (caches : List Upstream) (hint : Option Hint) : List Upstream :=
  let filtered := caches.filter (fun x =>
    match hint with
    | none => true
    | some h => hintKeep h x)
  match hint with
  | none => filtered
  | some _ => if filtered.length > 0 then filtered else caches

/-- The total weight `candidates.reduce((s, x) => s + #weight(#key(x), x.weight), 0)`. -/
def effSum (st : PoolState) (cs : List Upstream) : ℚ :=
  cs.foldl (fun s x => s + effWeight st x) 0

/-- The subtract-in-iteration-order weighted draw:
`for (const x of candidates) if ((rand -= weight(x)) <= 0) return x`;
`none` is the fall-through to the defensive `NoUpstreamError`. -/
def pickLoop (st : PoolState) : List Upstream → ℚ → Option Upstream
  | [], _ => none
  | x :: xs, rand =>
    if rand - effWeight st x ≤ 0 then some x
    else pickLoop st xs (rand - effWeight st x)

/-- The selection core of `sample(hint)` on the post-`#sync` state: collect the
candidates, throw `NoUpstreamError` when empty, otherwise run the weighted draw
with `rand = r * sum` (`r` embeds `Math.random()`); the draw's fall-through is
the defensive `NoUpstreamError`. -/
def sample (st : PoolState) (hint : Option Hint) (r : ℚ) : Except PoolError Upstream :=
  if (candidates st.caches hint).length = 0 then .error .noUpstream
  else
    match pickLoop st (candidates st.caches hint)
        (r * effSum st (candidates st.caches hint)) with
    | some u => .ok u
    | none => .error .noUpstream

end Pool

namespace Pool

/-! ### Helper lemmas -/

theorem mapSet_self {α : Type} (m : Nat → Option α) (k : Nat) (v : α) :
    mapSet m k v k = some v := by
  simp [mapSet]

theorem mapSet_other {α : Type} (m : Nat → Option α) (k j : Nat) (v : α) (h : j ≠ k) :
    mapSet m k v j = m j := by
  simp [mapSet, h]

theorem foldl_add_shift (w : Upstream → ℚ) (a : ℚ) (l : List Upstream) :
    l.foldl (fun s x => s + w x) a = a + l.foldl (fun s x => s + w x) 0 := by
  induction l generalizing a with
  | nil => simp
  | cons x xs ih =>
    simp only [List.foldl_cons]
    rw [ih (a + w x), ih (0 + w x)]
    ring

theorem effSum_nil (st : PoolState) : effSum st [] = 0 := rfl

theorem effSum_cons (st : PoolState) (x : Upstream) (xs : List Upstream) :
    effSum st (x :: xs) = effWeight st x + effSum st xs := by
  unfold effSum
  simp only [List.foldl_cons]
  rw [foldl_add_shift]
  ring

theorem effSum_nonneg (st : PoolState) (cs : List Upstream)
    (h : ∀ x ∈ cs, 0 ≤ effWeight st x) : 0 ≤ effSum st cs := by
  induction cs with
  | nil => simp [effSum_nil]
  | cons x xs ih =>
    rw [effSum_cons]
    have hx := h x (List.mem_cons_self x xs)
    have hxs := ih (fun y hy => h y (List.mem_cons_of_mem x hy))
    linarith

theorem effSum_eq_zero (st : PoolState) (cs : List Upstream)
    (h : ∀ x ∈ cs, effWeight st x = 0) : effSum st cs = 0 := by
  induction cs with
  | nil => simp [effSum_nil]
  | cons x xs ih =>
    rw [effSum_cons, h x (List.mem_cons_self x xs),
      ih (fun y hy => h y (List.mem_cons_of_mem x hy))]
    ring

theorem pickLoop_isSome_of_lt (st : PoolState) :
    ∀ (cs : List Upstream) (rand : ℚ), cs ≠ [] → rand < effSum st cs →
      (pickLoop st cs rand).isSome = true := by
  intro cs
  induction cs with
  | nil => intro rand h _; exact absurd rfl h
  | cons x xs ih =>
    intro rand _ hlt
    rw [effSum_cons] at hlt
    unfold pickLoop
    by_cases hle : rand - effWeight st x ≤ 0
    · simp [hle]
    · rw [if_neg hle]
      by_cases hxs : xs = []
      · subst hxs
        rw [effSum_nil] at hlt
        push_neg at hle
        linarith
      · exact ih (rand - effWeight st x) hxs (by linarith)

theorem pickLoop_zero_head (st : PoolState) (x : Upstream) (xs : List Upstream)
    (h : 0 ≤ effWeight st x) : pickLoop st (x :: xs) 0 = some x := by
  unfold pickLoop
  rw [if_pos (by linarith)]

theorem purge_not_cached {α : Type} (keys : List Nat) :
    ∀ (caches : List Upstream) (m : Nat → Option α) (k : Nat),
      k ∉ caches.map key → purge caches keys m k = m k := by
  intro caches
  induction caches with
  | nil => intro m k _; rfl
  | cons x xs ih =>
    intro m k hk
    have hne : k ≠ key x := by
      intro h
      exact hk (by simp [h])
    have hxs : k ∉ xs.map key := fun h => hk (by simp [h])
    have hstep : purge (x :: xs) keys m =
        purge xs keys (if key x ∈ keys then m else mapDel m (key x)) := rfl
    rw [hstep, ih _ k hxs]
    by_cases hxk : key x ∈ keys
    · rw [if_pos hxk]
    · rw [if_neg hxk]
      simp [mapDel, hne]

theorem purge_mem_keys {α : Type} (keys : List Nat) :
    ∀ (caches : List Upstream) (m : Nat → Option α) (k : Nat),
      k ∈ keys → purge caches keys m k = m k := by
  intro caches
  induction caches with
  | nil => intro m k _; rfl
  | cons x xs ih =>
    intro m k hk
    have hstep : purge (x :: xs) keys m =
        purge xs keys (if key x ∈ keys then m else mapDel m (key x)) := rfl
    rw [hstep, ih _ k hk]
    by_cases hxk : key x ∈ keys
    · rw [if_pos hxk]
    · rw [if_neg hxk]
      have hne : k ≠ key x := by
        intro h
        exact hxk (h ▸ hk)
      simp [mapDel, hne]

theorem purge_stale {α : Type} (keys : List Nat) :
    ∀ (caches : List Upstream) (m : Nat → Option α) (k : Nat),
      k ∈ caches.map key → k ∉ keys → purge caches keys m k = none := by
  intro caches
  induction caches with
  | nil => intro m k h _; simp at h
  | cons x xs ih =>
    intro m k hk hnk
    have hstep : purge (x :: xs) keys m =
        purge xs keys (if key x ∈ keys then m else mapDel m (key x)) := rfl
    by_cases hxs : k ∈ xs.map key
    · rw [hstep, ih _ k hxs hnk]
    · have hkx : k = key x := by
        rcases List.mem_map.mp hk with ⟨y, hy, hky⟩
        rcases List.mem_cons.mp hy with h | h
        · rw [h] at hky; exact hky.symm
        · exact absurd (List.mem_map.mpr ⟨y, h, hky⟩) hxs
      rw [hstep, purge_not_cached keys xs _ k hxs]
      rw [if_neg (by rw [← hkx]; exact hnk)]
      simp [mapDel, hkx]

end Pool

/-! ### Claim theorems -/

/-- C7: the `Pool` constructor fails with a fatal assertion iff the configuration,
after applying the defaults `ttl=60, minFailures=0, minWeight=0.01, decay=0.8`,
violates `ttl ≥ 1 ∧ minFailures ≥ 0 ∧ minWeight ≥ 0 ∧ 0 < decay < 1`; for every
configuration satisfying all four, construction succeeds. -/
theorem Pool.constructor_asserts_iff_invalid (c : PoolConfig) :
    (Pool.new c = none ↔ ¬ Pool.optionsValid (Pool.resolveOptions c)) ∧
      Pool.resolveOptions { ttl := none, minFailures := none, minWeight := none, decay := none }
        = { ttl := 60, minFailures := 0, minWeight := 1 / 100, decay := 4 / 5 } := by
  constructor
  · unfold Pool.new
    by_cases h : Pool.optionsValid (Pool.resolveOptions c)
    · simp [h]
    · simp [h]
  · rfl

/-- C8: while the cache is fresh (`now < expiresAt`), `#sync` is a no-op: the
state (caches, failures, lastSampledAt, effectiveWeight, expiresAt) is unchanged
and the result does not depend on what the loader would return. -/
theorem Pool.sync_noop_when_fresh (o : PoolOptions) (st : PoolState) (now : ℚ)
    (loaded : List Upstream) (h : now < st.expiresAt) :
    Pool.sync o st now loaded = st := by
  unfold Pool.sync
  rw [if_pos (show st.expiresAt > now from h)]

theorem Pool.sync_noop_when_fresh_witness :
    (1 : ℚ) < ({ Pool.initState with expiresAt := 5 } : PoolState).expiresAt ∧
      Pool.sync ⟨60, 0, 1 / 100, 4 / 5⟩ { Pool.initState with expiresAt := 5 } 1
          [⟨7, 1, 1⟩]
        = { Pool.initState with expiresAt := 5 } :=
  ⟨by norm_num, Pool.sync_noop_when_fresh _ _ _ _ (by norm_num)⟩

/-- C2: a `fail` call on an endpoint that resolves increments its failure count by
exactly 1; if the incremented count reaches `minFailures` the effective weight
becomes the current effective weight times `decay` (with no floor at `minWeight`:
the result does not depend on `minWeight` at all), otherwise the effective weight
is unchanged. -/
theorem Pool.fail_decays (o : PoolOptions) (st : PoolState) (arg : UpstreamOrId)
    (u : Upstream) (h : Pool.resolve st arg = some u) :
    ∃ st', Pool.fail o st arg = some st' ∧
      st'.failures (Pool.key u) = some (Pool.failureOf st (Pool.key u) + 1) ∧
      Pool.effWeight st' u =
        (if ((Pool.failureOf st (Pool.key u) + 1 : Nat) : Int) ≥ o.minFailures
         then Pool.effWeight st u * o.decay
         else Pool.effWeight st u) ∧
      ∀ w, Pool.fail { o with minWeight := w } st arg = Pool.fail o st arg := by
  have hw : ∀ w, Pool.fail { o with minWeight := w } st arg = Pool.fail o st arg := by
    intro w
    rfl
  have hfail : Pool.fail o st arg =
      (if ((Pool.failureOf st (Pool.key u) + 1 : Nat) : Int) ≥ o.minFailures then
        some { st with
                failures := mapSet st.failures (Pool.key u) (Pool.failureOf st (Pool.key u) + 1)
                weights := mapSet st.weights (Pool.key u)
                  (Pool.weightOf st (Pool.key u) u.weight * o.decay) }
      else
        some { st with
                failures := mapSet st.failures (Pool.key u)
                  (Pool.failureOf st (Pool.key u) + 1) }) := by
    unfold Pool.fail
    rw [h]
  by_cases hmin : ((Pool.failureOf st (Pool.key u) + 1 : Nat) : Int) ≥ o.minFailures
  · refine ⟨_, hfail.trans (if_pos hmin), Pool.mapSet_self _ _ _, ?_, hw⟩
    rw [if_pos hmin]
    simp only [Pool.effWeight, Pool.weightOf, Pool.mapSet_self, Option.getD_some]
  · refine ⟨_, hfail.trans (if_neg hmin), Pool.mapSet_self _ _ _, ?_, hw⟩
    rw [if_neg hmin]
    simp only [Pool.effWeight, Pool.weightOf]

/-- Witness for C2 at a concrete input: one cached endpoint, `minFailures = 0`,
`decay = 4/5`; one `fail` takes the failure count to 1 and the effective weight
from 1 to 4/5. -/
theorem Pool.fail_decays_witness :
    Pool.resolve { Pool.initState with caches := [⟨3, 1, 1⟩] } (.rawId 3)
        = some ⟨3, 1, 1⟩ ∧
      ∃ st', Pool.fail ⟨60, 0, 1 / 100, 4 / 5⟩
            { Pool.initState with caches := [⟨3, 1, 1⟩] } (.rawId 3) = some st' ∧
        st'.failures 3 = some 1 ∧
        Pool.effWeight st' ⟨3, 1, 1⟩ =
          (if ((1 : Nat) : Int) ≥ (0 : Int)
           then Pool.effWeight { Pool.initState with caches := [⟨3, 1, 1⟩] } ⟨3, 1, 1⟩ * (4 / 5)
           else Pool.effWeight { Pool.initState with caches := [⟨3, 1, 1⟩] } ⟨3, 1, 1⟩) ∧
        ∀ w, Pool.fail ⟨60, 0, w, 4 / 5⟩
            { Pool.initState with caches := [⟨3, 1, 1⟩] } (.rawId 3)
          = Pool.fail ⟨60, 0, 1 / 100, 4 / 5⟩
              { Pool.initState with caches := [⟨3, 1, 1⟩] } (.rawId 3) := by
  refine ⟨rfl, ?_⟩
  exact Pool.fail_decays ⟨60, 0, 1 / 100, 4 / 5⟩
    { Pool.initState with caches := [⟨3, 1, 1⟩] } (.rawId 3) ⟨3, 1, 1⟩ rfl

/-- C3: a `succeed` call on an endpoint that resolves sets its failure count to 0
and its effective weight entry to the static configured weight, so the effective
weight is exactly `u.weight` afterwards, whatever decay had been applied before. -/
theorem Pool.succeed_resets (st : PoolState) (arg : UpstreamOrId) (u : Upstream)
    (h : Pool.resolve st arg = some u) :
    ∃ st', Pool.succeed st arg = some st' ∧
      st'.failures (Pool.key u) = some 0 ∧
      st'.weights (Pool.key u) = some u.weight ∧
      Pool.effWeight st' u = u.weight := by
  unfold Pool.succeed
  rw [h]
  refine ⟨_, rfl, Pool.mapSet_self _ _ _, Pool.mapSet_self _ _ _, ?_⟩
  simp only [Pool.effWeight, Pool.weightOf, Pool.mapSet_self, Option.getD_some]

/-- Witness for C3 at a concrete input: the endpoint's effective weight had been
decayed to 1/2 in the state; `succeed` restores it to the static weight 1. -/
theorem Pool.succeed_resets_witness :
    Pool.resolve
        { Pool.initState with
            caches := [⟨3, 1, 1⟩]
            weights := mapSet (fun _ => none) 3 (1 / 2) } (.ups ⟨3, 1, 1⟩)
        = some ⟨3, 1, 1⟩ ∧
      ∃ st', Pool.succeed
          { Pool.initState with
              caches := [⟨3, 1, 1⟩]
              weights := mapSet (fun _ => none) 3 (1 / 2) } (.ups ⟨3, 1, 1⟩) = some st' ∧
        st'.failures 3 = some 0 ∧
        st'.weights 3 = some 1 ∧
        Pool.effWeight st' ⟨3, 1, 1⟩ = 1 :=
  ⟨rfl, Pool.succeed_resets _ _ ⟨3, 1, 1⟩ rfl⟩

/-- C10: when the `Upstream` object itself is passed to `succeed` or `fail`, the
cache lookup is skipped and the not-found assertion can never fire — the call
always updates the failures/weights maps under that endpoint's key, whatever the
current caches are (in particular when the endpoint is absent from them). -/
theorem Pool.object_feedback_never_asserts (o : PoolOptions) (st : PoolState)
    (u : Upstream) :
    (∃ st', Pool.succeed st (.ups u) = some st' ∧
        st'.failures (Pool.key u) = some 0 ∧
        st'.weights (Pool.key u) = some u.weight) ∧
      ∃ st', Pool.fail o st (.ups u) = some st' ∧
        st'.failures (Pool.key u) = some (Pool.failureOf st (Pool.key u) + 1) := by
  constructor
  · exact ⟨_, rfl, Pool.mapSet_self _ _ _, Pool.mapSet_self _ _ _⟩
  · rcases Pool.fail_decays o st (.ups u) u rfl with ⟨st', hf, hc, _⟩
    exact ⟨st', hf, hc⟩

/-- The hint filter as the spec states it: for `same` keep endpoints whose id
equals the hint's resolved id, for `diff` keep those whose id does not equal it.
Stated from the spec's words, to be compared with the source's `hintKeep`. -/
def Pool.hintClaimKeep (h : Hint) (x : Upstream) : Bool :=
  match h.type with
  | HintType.same => Pool.hintId h.upstream == x.id
  | HintType.diff => !(Pool.hintId h.upstream == x.id)

namespace Pool

theorem hintKeep_eq_claim (h : Hint) (x : Upstream) :
    hintKeep h x = hintClaimKeep h x := by
  obtain ⟨t, uoi⟩ := h
  cases t <;> cases heq : (hintId uoi == x.id) <;>
    simp [hintKeep, hintClaimKeep, heq] <;> rfl

theorem candidates_none (caches : List Upstream) :
    candidates caches none = caches.filter (fun _ => true) := rfl

theorem candidates_some (caches : List Upstream) (h : Hint) :
    candidates caches (some h) =
      if (caches.filter (fun x => hintKeep h x)).length > 0
      then caches.filter (fun x => hintKeep h x)
      else caches := rfl

theorem candidates_subset (caches : List Upstream) (hint : Option Hint)
    (x : Upstream) (hx : x ∈ candidates caches hint) : x ∈ caches := by
  cases hint with
  | none =>
    rw [candidates_none] at hx
    exact (List.mem_filter.mp hx).1
  | some h =>
    rw [candidates_some] at hx
    by_cases hlen : (caches.filter (fun x => hintKeep h x)).length > 0
    · rw [if_pos hlen] at hx
      exact (List.mem_filter.mp hx).1
    · rwa [if_neg hlen] at hx

theorem pickLoop_scaled_isSome (st : PoolState) (cs : List Upstream) (r : ℚ)
    (hne : cs ≠ []) (hnn : ∀ x ∈ cs, 0 ≤ effWeight st x)
    (hr0 : 0 ≤ r) (hr1 : r < 1) :
    (pickLoop st cs (r * effSum st cs)).isSome = true := by
  rcases lt_or_eq_of_le (effSum_nonneg st cs hnn) with hpos | hzero
  · exact pickLoop_isSome_of_lt st cs _ hne (by nlinarith)
  · cases cs with
    | nil => exact absurd rfl hne
    | cons x xs =>
      rw [← hzero, mul_zero,
        pickLoop_zero_head st x xs (hnn x (List.mem_cons_self x xs))]
      rfl

theorem sample_ok_of_candidates_ne (st : PoolState) (hint : Option Hint) (r : ℚ)
    (hne : candidates st.caches hint ≠ [])
    (hnn : ∀ x ∈ st.caches, 0 ≤ effWeight st x) (hr0 : 0 ≤ r) (hr1 : r < 1) :
    ∃ u, sample st hint r = .ok u := by
  have hnn' : ∀ x ∈ candidates st.caches hint, 0 ≤ effWeight st x :=
    fun x hx => hnn x (candidates_subset _ _ _ hx)
  have hsome := pickLoop_scaled_isSome st (candidates st.caches hint) r hne hnn' hr0 hr1
  rcases Option.isSome_iff_exists.mp hsome with ⟨u, hu⟩
  refine ⟨u, ?_⟩
  unfold sample
  rw [if_neg (fun hlen => hne (List.length_eq_zero.mp hlen)), hu]

theorem sample_error_of_candidates_nil (st : PoolState) (hint : Option Hint) (r : ℚ)
    (hnil : candidates st.caches hint = []) :
    sample st hint r = .error .noUpstream := by
  unfold sample
  rw [if_pos (by rw [hnil]; rfl)]

end Pool

/-- Concrete fixtures for witnesses: default options, endpoints with keys 3 and 7,
and a zero-weight endpoint with key 1. -/
def exOpts : PoolOptions := ⟨60, 0, 1 / 100, 4 / 5⟩

def ex3 : Upstream := ⟨3, 1, 1⟩

def ex7 : Upstream := ⟨7, 1, 1⟩

def exZero : Upstream := ⟨1, 0, 1⟩

/-- A state with endpoint 3 cached and feedback state recorded under key 3. -/
def exFeedback : PoolState :=
  { caches := [ex3]
    failures := mapSet (fun _ => none) 3 2
    times := mapSet (fun _ => none) 3 5
    weights := mapSet (fun _ => none) 3 (1 / 2)
    expiresAt := 0 }

/-- C9: for a non-empty candidate list whose effective weights are all
non-negative and any draw value in `[0, totalWeight)`, the
subtract-in-iteration-order loop selects some candidate, so the defensive
`NoUpstreamError` fall-through after the loop (`pickLoop = none`) is
unreachable under these preconditions. -/
theorem Pool.pickLoop_total (st : PoolState) (cs : List Upstream) (rand : ℚ)
    (hne : cs ≠ []) (hnn : ∀ x ∈ cs, 0 ≤ Pool.effWeight st x)
    (hr0 : 0 ≤ rand) (hlt : rand < Pool.effSum st cs) :
    (Pool.pickLoop st cs rand).isSome = true := by
  clear hnn hr0
  exact Pool.pickLoop_isSome_of_lt st cs rand hne hlt

theorem Pool.pickLoop_total_witness :
    ([ex3] ≠ ([] : List Upstream)) ∧
      (∀ x ∈ [ex3], 0 ≤ Pool.effWeight Pool.initState x) ∧
      (0 : ℚ) ≤ 1 / 2 ∧ (1 / 2 : ℚ) < Pool.effSum Pool.initState [ex3] ∧
      (Pool.pickLoop Pool.initState [ex3] (1 / 2)).isSome = true :=
  ⟨by decide, by decide, by norm_num,
    by norm_num [Pool.effSum, Pool.effWeight, Pool.weightOf, Pool.key,
      Pool.initState, ex3],
    Pool.pickLoop_total Pool.initState [ex3] (1 / 2)
      (by decide) (by decide) (by norm_num)
      (by norm_num [Pool.effSum, Pool.effWeight, Pool.weightOf, Pool.key,
        Pool.initState, ex3])⟩

/-- C5: if the candidate set is non-empty and every candidate's effective weight
is 0, `sample` deterministically returns the first candidate in cache iteration
order (total weight 0 makes the draw value 0, and the non-strict `≤ 0`
comparison lets the first candidate win), for every value of the random draw. -/
theorem Pool.sample_zero_weights (st : PoolState) (hint : Option Hint)
    (x : Upstream) (xs : List Upstream)
    (hcs : Pool.candidates st.caches hint = x :: xs)
    (hz : ∀ y ∈ x :: xs, Pool.effWeight st y = 0) (r : ℚ) :
    Pool.sample st hint r = .ok x := by
  have hsum : Pool.effSum st (x :: xs) = 0 := Pool.effSum_eq_zero st _ hz
  unfold Pool.sample
  rw [hcs, if_neg (by simp), hsum, mul_zero,
    Pool.pickLoop_zero_head st x xs (le_of_eq (hz x (List.mem_cons_self x xs)).symm)]

theorem Pool.sample_zero_weights_witness :
    Pool.candidates ({ Pool.initState with caches := [exZero] } : PoolState).caches none
        = [exZero] ∧
      (∀ y ∈ [exZero],
        Pool.effWeight { Pool.initState with caches := [exZero] } y = 0) ∧
      Pool.sample { Pool.initState with caches := [exZero] } none (1 / 3)
        = .ok exZero :=
  ⟨rfl, by decide,
    Pool.sample_zero_weights { Pool.initState with caches := [exZero] } none
      exZero [] rfl (by decide) (1 / 3)⟩

/-- C1: for a hinted `sample` call (on the post-sync state, drawing `r ∈ [0,1)`
over non-negative effective weights): the candidate set is the cache filtered by
the hint as the spec words it (`hintClaimKeep`: 'same' keeps endpoints whose id
equals the hint's resolved id, 'diff' keeps the others), falling back to the
full cache when the filtered set is empty; `sample` throws `NoUpstreamError` iff
that candidate set is empty, equivalently iff the cache itself is empty. -/
theorem Pool.sample_hinted_candidates (st : PoolState) (h : Hint) (r : ℚ)
    (hr0 : 0 ≤ r) (hr1 : r < 1)
    (hnn : ∀ x ∈ st.caches, 0 ≤ Pool.effWeight st x) :
    (Pool.candidates st.caches (some h) =
        if st.caches.filter (Pool.hintClaimKeep h) = []
        then st.caches
        else st.caches.filter (Pool.hintClaimKeep h)) ∧
      (Pool.sample st (some h) r = .error .noUpstream ↔
        Pool.candidates st.caches (some h) = []) ∧
      (Pool.candidates st.caches (some h) = [] ↔ st.caches = []) := by
  have hfc : st.caches.filter (fun x => Pool.hintKeep h x)
      = st.caches.filter (Pool.hintClaimKeep h) :=
    List.filter_congr (fun x _ => Pool.hintKeep_eq_claim h x)
  have hcand := Pool.candidates_some st.caches h
  rw [hfc] at hcand
  refine ⟨?_, ?_, ?_⟩
  · rw [hcand]
    by_cases hnil : st.caches.filter (Pool.hintClaimKeep h) = []
    · rw [if_pos hnil, if_neg (by rw [hnil]; simp)]
    · rw [if_neg hnil, if_pos (by simpa [List.length_pos] using hnil)]
  · constructor
    · intro herr
      by_contra hne
      rcases Pool.sample_ok_of_candidates_ne st (some h) r hne hnn hr0 hr1 with ⟨u, hu⟩
      rw [hu] at herr
      exact Except.noConfusion herr
    · exact fun hnil => Pool.sample_error_of_candidates_nil st (some h) r hnil
  · constructor
    · intro hc
      by_cases hnil : st.caches.filter (Pool.hintClaimKeep h) = []
      · rwa [hcand, if_neg (by rw [hnil]; simp)] at hc
      · rw [hcand, if_pos (by simpa [List.length_pos] using hnil)] at hc
        exact absurd hc hnil
    · intro hc
      rw [hcand, hc]
      simp

/-- A state with endpoints 3 and 7 cached and no feedback yet. -/
def exPair : PoolState := { Pool.initState with caches := [ex3, ex7] }

/-- A hint excluding endpoint 3. -/
def exHint : Hint := ⟨HintType.diff, .rawId 3⟩

theorem Pool.sample_hinted_candidates_witness :
    ((0 : ℚ) ≤ 1 / 2) ∧ ((1 / 2 : ℚ) < 1) ∧
      (∀ x ∈ exPair.caches, 0 ≤ Pool.effWeight exPair x) ∧
      ((Pool.candidates exPair.caches (some exHint) =
          if exPair.caches.filter (Pool.hintClaimKeep exHint) = []
          then exPair.caches
          else exPair.caches.filter (Pool.hintClaimKeep exHint)) ∧
        (Pool.sample exPair (some exHint) (1 / 2) = .error .noUpstream ↔
          Pool.candidates exPair.caches (some exHint) = []) ∧
        (Pool.candidates exPair.caches (some exHint) = [] ↔ exPair.caches = [])) :=
  ⟨by norm_num, by norm_num, by decide,
    Pool.sample_hinted_candidates exPair exHint (1 / 2) (by norm_num) (by norm_num)
      (by decide)⟩

/-- C4: on an expired refresh, every key of the old cache absent from the fresh
list has its `lastSampledAt` (`#times`) and `failures` entries deleted, the
`effectiveWeight` (`#weights`) map is never touched, `failures`/`effectiveWeight`
entries of keys in the fresh list are preserved unchanged, the cached list is
replaced by the fresh list, and `expiresAt` becomes `now + ttl * 1000`. -/
theorem Pool.sync_refresh (o : PoolOptions) (st : PoolState) (now : ℚ)
    (loaded : List Upstream) (h : st.expiresAt ≤ now) :
    (∀ k, k ∈ st.caches.map Pool.key → k ∉ loaded.map Pool.key →
        (Pool.sync o st now loaded).times k = none ∧
        (Pool.sync o st now loaded).failures k = none) ∧
      (Pool.sync o st now loaded).weights = st.weights ∧
      (∀ k, k ∈ loaded.map Pool.key →
        (Pool.sync o st now loaded).failures k = st.failures k ∧
        (Pool.sync o st now loaded).weights k = st.weights k) ∧
      (Pool.sync o st now loaded).caches = loaded ∧
      (Pool.sync o st now loaded).expiresAt = now + o.ttl * 1000 := by
  have hs : Pool.sync o st now loaded =
      { st with
          caches := loaded
          times := Pool.purge st.caches (loaded.map Pool.key) st.times
          failures := Pool.purge st.caches (loaded.map Pool.key) st.failures
          expiresAt := now + o.ttl * 1000 } := by
    unfold Pool.sync
    rw [if_neg (not_lt.mpr h)]
  rw [hs]
  refine ⟨?_, rfl, ?_, rfl, rfl⟩
  · intro k hk hnk
    exact ⟨Pool.purge_stale _ _ _ _ hk hnk, Pool.purge_stale _ _ _ _ hk hnk⟩
  · intro k hk
    exact ⟨Pool.purge_mem_keys _ _ _ _ hk, rfl⟩

theorem Pool.sync_refresh_witness :
    exFeedback.expiresAt ≤ 1 ∧
      ((∀ k, k ∈ exFeedback.caches.map Pool.key → k ∉ [ex7].map Pool.key →
          (Pool.sync exOpts exFeedback 1 [ex7]).times k = none ∧
          (Pool.sync exOpts exFeedback 1 [ex7]).failures k = none) ∧
        (Pool.sync exOpts exFeedback 1 [ex7]).weights = exFeedback.weights ∧
        (∀ k, k ∈ [ex7].map Pool.key →
          (Pool.sync exOpts exFeedback 1 [ex7]).failures k = exFeedback.failures k ∧
          (Pool.sync exOpts exFeedback 1 [ex7]).weights k = exFeedback.weights k) ∧
        (Pool.sync exOpts exFeedback 1 [ex7]).caches = [ex7] ∧
        (Pool.sync exOpts exFeedback 1 [ex7]).expiresAt = 1 + exOpts.ttl * 1000) :=
  ⟨by decide, Pool.sync_refresh exOpts exFeedback 1 [ex7] (by decide)⟩

/-- The state after a refresh at time 1 whose fresh load is empty: endpoint 3 is
dropped from the cache. -/
def exDropped : PoolState := Pool.sync exOpts { Pool.initState with caches := [ex3] } 1 []

/-- C6 counterexample: after a refresh drops endpoint 3 from the cache, `fail`
and `succeed` called with the dropped endpoint's `Upstream` object do NOT fail
as unknown: both succeed, contradicting the claim that a feedback call against
a dropped endpoint must fail as an unknown endpoint. -/
theorem Pool.dropped_object_feedback_no_assert :
    exDropped.caches = [] ∧
      (Pool.fail exOpts exDropped (.ups ex3)).isSome = true ∧
      (Pool.succeed exDropped (.ups ex3)).isSome = true := by
  refine ⟨rfl, ?_, rfl⟩
  decide

/-- C6 (amended): only raw-id arguments are resolved against the cache, so it is
raw-id feedback about an endpoint matching no cached endpoint that fails the
fatal assertion, in both `succeed` and `fail` — in particular a raw-id call for
an endpoint a refresh dropped; an `Upstream`-object argument skips the lookup
and never asserts. -/
theorem Pool.unknown_raw_id_asserts (o : PoolOptions) (st : PoolState) (i : Nat)
    (h : ∀ x ∈ st.caches, x.id ≠ i) :
    Pool.succeed st (.rawId i) = none ∧ Pool.fail o st (.rawId i) = none := by
  have hfind : st.caches.find? (fun x => x.id == i) = none :=
    List.find?_eq_none.mpr (fun x hx => by simp [h x hx])
  have hres : Pool.resolve st (.rawId i) = none := by
    unfold Pool.resolve
    exact hfind
  constructor
  · unfold Pool.succeed
    rw [hres]
  · unfold Pool.fail
    rw [hres]

theorem Pool.unknown_raw_id_asserts_witness :
    (∀ x ∈ exDropped.caches, x.id ≠ 3) ∧
      (Pool.succeed exDropped (.rawId 3) = none ∧
        Pool.fail exOpts exDropped (.rawId 3) = none) :=
  ⟨by decide, Pool.unknown_raw_id_asserts exOpts exDropped 3 (by decide)⟩
